import Mathlib

/-!
Verification development for the crisis-network-analysis repository.

The Python analytical core is shallowly embedded in Lean:
* pandas cells become the `Cell` inductive (`na` models NaN and any other
  missing value, `num` models numeric cells as rationals, `str` strings);
* data frames become a column-name list plus a list of rows of cells,
  carrying the default positional index;
* graphs become explicit node/edge lists;
* Python code that can raise becomes an `Option`-valued function.

Floating-point arithmetic is modelled with rationals.
-/

namespace CrisisNet

/-- A pandas cell: a string, a number, or a missing value (NaN/None/NaT). -/
inductive Cell where
  | str : String → Cell
  | num : ℚ → Cell
  | na : Cell
deriving DecidableEq

/-- A pandas data frame with its default positional index: a list of column
names and a list of rows (each row a list of cells, positionally matching
the columns). -/
structure DataFrame where
  cols : List String
  rows : List (List Cell)
deriving DecidableEq

/-- A word character in the sense of the regex `\w` used by
`calculate_liwc_scores` (ASCII letters, digits and underscore; the inputs
handled by the repository are ASCII). -/
def isWordChar (c : Char) : Bool := c.isAlphanum || c == '_'

/-- Tokenization of `calculate_liwc_scores`: lower-case the text and take the
maximal runs of word characters, exactly what
`re.findall(r'\b\w+\b', text.lower())` returns. -/
def tokenize (s : String) : List String :=
  (((s.data.map Char.toLower).splitOnP (fun c => !(isWordChar c))).filter
    (fun w => !w.isEmpty)).map (fun cs => String.mk cs)

/-- The LIWC lexicon of `_initialize_liwc_categories`, flattened in
declaration order (Python dicts keep insertion order, and the scorer iterates
groups and then categories in that order): category name paired with its
trigger-word list. -/
def liwcCategories : List (String × List String) :=
  [("cogproc", ["think", "know", "consider", "understand", "realize", "believe",
      "remember", "analyze", "decide", "conclude", "reason", "logic"]),
   ("causation", ["because", "cause", "due", "since", "reason", "why", "effect",
      "result", "lead", "influence", "impact", "consequence"]),
   ("certainty", ["sure", "certain", "definitely", "absolutely", "clearly", "obvious",
      "undoubtedly", "without", "doubt", "guarantee", "confirm"]),
   ("differentiation", ["but", "however", "although", "whereas", "different",
      "distinguish", "contrast", "unlike", "except", "rather"]),
   ("discrepancies", ["should", "would", "could", "wish", "hope", "need", "want",
      "expect", "better", "worse", "improve", "change"]),
   ("insight", ["understand", "realize", "see", "recognize", "aware", "discover",
      "learn", "find", "notice", "grasp", "comprehend", "insight"]),
   ("tentative", ["maybe", "perhaps", "might", "possibly", "probably", "seem",
      "appear", "guess", "suppose", "suggest", "uncertain"]),
   ("comparison", ["more", "less", "than", "compare", "similar", "same", "like",
      "unlike", "equal", "versus", "between", "among"]),
   ("percept", ["see", "hear", "feel", "touch", "taste", "smell", "look", "watch",
      "listen", "observe", "notice", "sense", "perceive"]),
   ("see", ["see", "saw", "seen", "look", "watch", "observe", "notice", "view",
      "witness", "spot", "glimpse", "stare", "gaze", "glance"]),
   ("hear", ["hear", "heard", "listen", "sound", "noise", "voice", "music",
      "loud", "quiet", "silent", "whisper", "shout", "scream"]),
   ("feel", ["feel", "felt", "touch", "warm", "cold", "hot", "cool", "smooth",
      "rough", "soft", "hard", "pain", "hurt", "comfort"]),
   ("affect", ["happy", "sad", "angry", "fear", "joy", "love", "hate", "worry",
      "excited", "nervous", "calm", "anxious", "pleased", "upset"]),
   ("posemo", ["happy", "joy", "love", "nice", "good", "great", "excellent",
      "wonderful", "amazing", "perfect", "beautiful", "smile", "laugh"]),
   ("negemo", ["sad", "angry", "hate", "terrible", "awful", "bad", "worst",
      "horrible", "disgusting", "evil", "nasty", "ugly", "cry"]),
   ("anx", ["worry", "fear", "nervous", "anxious", "scared", "afraid", "panic",
      "stress", "tension", "concern", "trouble", "problem", "crisis"]),
   ("anger", ["angry", "mad", "hate", "furious", "rage", "irritated", "annoyed",
      "frustrated", "pissed", "damn", "fight", "argue", "attack"]),
   ("sad", ["sad", "cry", "grief", "sorrow", "tears", "depressed", "miserable",
      "unhappy", "lonely", "hurt", "pain", "loss", "death"]),
   ("swear", ["damn", "hell", "shit", "fuck", "ass", "bitch", "bastard",
      "crap", "piss", "suck", "wtf", "omg", "jesus"]),
   ("risk", ["danger", "risk", "threat", "warning", "alert", "emergency", "crisis",
      "hazard", "unsafe", "careful", "caution", "avoid", "escape"]),
   ("social", ["we", "us", "our", "they", "them", "their", "people", "community",
      "together", "help", "support", "share", "connect", "family"]),
   ("work", ["work", "job", "office", "business", "company", "employee", "boss",
      "meeting", "project", "task", "duty", "responsibility"]),
   ("leisure", ["fun", "play", "game", "sport", "entertainment", "vacation",
      "holiday", "party", "celebration", "enjoy", "relax"]),
   ("home", ["home", "house", "family", "kitchen", "bedroom", "room", "apartment",
      "neighborhood", "domestic", "household", "yard", "garden"]),
   ("money", ["money", "dollar", "cost", "expensive", "cheap", "buy", "sell",
      "pay", "price", "budget", "financial", "economic", "tax"]),
   ("death", ["death", "die", "dead", "kill", "murder", "suicide", "grave",
      "funeral", "cemetery", "victim", "casualty", "fatality"]),
   ("time", ["time", "hour", "minute", "day", "week", "month", "year", "now",
      "today", "tomorrow", "yesterday", "soon", "late", "early"]),
   ("space", ["here", "there", "where", "place", "location", "area", "region",
      "city", "country", "north", "south", "east", "west", "near"]),
   ("motion", ["go", "move", "come", "run", "walk", "drive", "fly", "travel",
      "leave", "arrive", "return", "follow", "chase", "escape"])]

/-- Category names in lexicon-declaration order. -/
def liwcCategoryNames : List String := liwcCategories.map Prod.fst

/-- `LIWCCrisisAnalyzer.calculate_liwc_scores`: missing or non-string input
yields the all-zero score map; otherwise the text is tokenized, and each
category scores `matches / total_words * 100` where `matches` counts the
tokens (with multiplicity) that belong to the category's word list. -/
def calculate_liwc_scores (text : Cell) : List (String × ℚ) :=
  match text with
  | Cell.str t =>
    let words := tokenize t
    let total := words.length
    if total = 0 then
      liwcCategories.map (fun c => (c.1, 0))
    else
      liwcCategories.map
        (fun c => (c.1, ((words.countP (fun w => c.2.contains w) : ℚ) / total) * 100))
  | _ => liwcCategories.map (fun c => (c.1, 0))

/-- The score columns produced for one row, as cells. -/
def scoreCells (text : Cell) : List Cell :=
  (calculate_liwc_scores text).map (fun p => Cell.num p.2)

/-- `LIWCCrisisAnalyzer.analyze_dataset_liwc`: score every row's text column
and concatenate the per-category score columns onto the original frame.
On a frame with no rows the per-row score list is empty, so
`pd.DataFrame([])` has no columns at all and the concatenation returns the
input frame unchanged; with at least one row, a missing text column raises a
`KeyError` (modelled as `none`). -/
def analyze_dataset_liwc (df : DataFrame) (textColumn : String) : Option DataFrame :=
  if df.rows.isEmpty then some df
  else
    match df.cols.indexOf? textColumn with
    | none => none
    | some i =>
      some { cols := df.cols ++ liwcCategoryNames,
             rows := df.rows.map (fun r => r ++ scoreCells (r.getD i Cell.na)) }

/-- The per-category core of
`LIWCCrisisAnalyzer.calculate_normalized_liwc_scores`: given the base rate of
one category and its raw score column, produce the `_nls` column.  When the
base rate is positive the whole column is mapped through
`(raw - base_rate) / base_rate * 100`; otherwise the column is the constant
zero (the source assigns the scalar 0 to the new column). -/
def calculate_normalized_liwc_scores (baseRate : ℚ) (column : List ℚ) : List ℚ :=
  if 0 < baseRate then column.map (fun raw => (raw - baseRate) / baseRate * 100)
  else column.map (fun _ => 0)

/-! ### Quality Validator (`src/preprocessing/quality_validator.py`)

Timestamps are modelled as rationals (days since an epoch); NaN/NaT cells
are `Cell.na`.  Comparisons against NaN are false, as in pandas. -/

/-- The required columns of `QualityValidator._check_completeness`. -/
def requiredColumns : List String :=
  ["title", "content", "author", "created_utc", "score"]

/-- A named column of a frame as the list of its cells (empty when the
column is absent). -/
def getColumn (df : DataFrame) (name : String) : List Cell :=
  match df.cols.indexOf? name with
  | none => []
  | some i => df.rows.map (fun r => r.getD i Cell.na)

/-- `_check_completeness`: the average, over the required columns, of the
per-column completeness `100 - missing%` (an absent required column counts
as 0). -/
def check_completeness (df : DataFrame) : ℚ :=
  ((requiredColumns.map (fun c =>
      if df.cols.contains c then
        100 - ((getColumn df c).countP (fun x => x == Cell.na) : ℚ) /
          (df.rows.length : ℚ) * 100
      else 0)).sum) / (requiredColumns.length : ℚ)

/-- A timestamp cell lying strictly in the future (`timestamps >
pd.Timestamp.now()`; NaT and unparsed cells compare false). -/
def cellFutureTs (now : ℚ) : Cell → Bool
  | Cell.num t => decide (now < t)
  | _ => false

/-- A negative score cell (`df['score'] < 0`; NaN compares false). -/
def cellNegScore : Cell → Bool
  | Cell.num q => decide (q < 0)
  | _ => false

/-- An upvote-ratio cell outside `[0, 1]` (NaN compares false). -/
def cellBadRatio : Cell → Bool
  | Cell.num q => decide (q < 0) || decide (1 < q)
  | _ => false

/-- A content cell whose stripped length is 0
(`df['content'].str.strip().str.len() == 0`; `.str` yields NaN on
non-strings, which compares false). -/
def cellEmptyContent : Cell → Bool
  | Cell.str s =>
    ((s.data.dropWhile Char.isWhitespace).reverse.dropWhile Char.isWhitespace).length == 0
  | _ => false

/-- `_check_consistency`: count future timestamps, negative scores, invalid
upvote ratios and empty content (each only when its column is present) and
score `max 0 (100 - issues / rows * 100)`.  On a frame with no rows the
Python divides plain ints by zero and raises; `validate_dataset` models
that. -/
def check_consistency (now : ℚ) (df : DataFrame) : ℚ :=
  let issues : ℕ :=
    (if df.cols.contains "created_utc" then
      (getColumn df "created_utc").countP (cellFutureTs now) else 0) +
    (if df.cols.contains "score" then
      (getColumn df "score").countP cellNegScore else 0) +
    (if df.cols.contains "upvote_ratio" then
      (getColumn df "upvote_ratio").countP cellBadRatio else 0) +
    (if df.cols.contains "content" then
      (getColumn df "content").countP cellEmptyContent else 0)
  max 0 (100 - (issues : ℚ) / (df.rows.length : ℚ) * 100)

/-- A content cell shorter than 20 characters (NaN compares false). -/
def cellTooShort : Cell → Bool
  | Cell.str s => decide (s.length < 20)
  | _ => false

/-- A content cell longer than 10000 characters. -/
def cellTooLong : Cell → Bool
  | Cell.str s => decide (10000 < s.length)
  | _ => false

/-- Whether the character list starting here begins with the pattern. -/
def charsStartWith : List Char → List Char → Bool
  | _, [] => true
  | [], _ :: _ => false
  | c :: cs, p :: ps => c == p && charsStartWith cs ps

/-- Whether the pattern occurs as a contiguous substring. -/
def charsContainSub : List Char → List Char → Bool
  | [], pat => pat.isEmpty
  | c :: rest, pat => charsStartWith (c :: rest) pat || charsContainSub rest pat

/-- Number of (possibly overlapping) occurrences of the pattern. -/
def charsCountSub : List Char → List Char → ℕ
  | [], _ => 0
  | c :: rest, pat =>
    (if charsStartWith (c :: rest) pat then 1 else 0) + charsCountSub rest pat

/-- Case-insensitive substring test, modelling one alternative of the
case-insensitive spam regexes. -/
def containsSub (s pat : String) : Bool :=
  charsContainSub (s.data.map Char.toLower) pat.data

/-- A row matching the first spam pattern `(?i)(buy|sale|discount|offer|limited time)`. -/
def spamSalesy : Cell → Bool
  | Cell.str s =>
    (["buy", "sale", "discount", "offer", "limited time"]).any (fun p => containsSub s p)
  | _ => false

/-- A row matching the second spam pattern `(?i)(click here|visit now|follow link)`. -/
def spamClicky : Cell → Bool
  | Cell.str s =>
    (["click here", "visit now", "follow link"]).any (fun p => containsSub s p)
  | _ => false

/-- A row matching the multiple-links spam regex, modelled as at least three
occurrences of `http`. -/
def spamMultiLink : Cell → Bool
  | Cell.str s => decide (3 ≤ charsCountSub s.data ("http".data))
  | _ => false

/-- `_check_content_quality`: count too-short, too-long and spam-matching
content rows and score `max 0 (100 - issues / rows * 100)` (with no content
column all counts are 0). -/
def check_content_quality (df : DataFrame) : ℚ :=
  let issues : ℕ :=
    if df.cols.contains "content" then
      (getColumn df "content").countP cellTooShort +
      (getColumn df "content").countP cellTooLong +
      ((getColumn df "content").countP spamSalesy +
       (getColumn df "content").countP spamClicky +
       (getColumn df "content").countP spamMultiLink)
    else 0
  max 0 (100 - (issues : ℚ) / (df.rows.length : ℚ) * 100)

/-- The numeric value of a cell, when it has one. -/
def cellNum : Cell → Option ℚ
  | Cell.num q => some q
  | _ => none

/-- `_check_temporal_coverage`: the fraction of calendar days between the
first and the last timestamp that have at least one post, times 100.
Timestamps are rational day counts and a calendar day is an integer floor;
with no timestamp column, or no parseable timestamp (the `min` of an empty
series raises and is caught), the score is 0. -/
def check_temporal_coverage (df : DataFrame) : ℚ :=
  if df.cols.contains "created_utc" then
    match (getColumn df "created_utc").filterMap cellNum with
    | [] => 0
    | t :: ts =>
      let lo : ℤ := Rat.floor (ts.foldr min t)
      let hi : ℤ := Rat.floor (ts.foldr max t)
      let days : ℕ := (hi - lo).toNat + 1
      let missing := ((List.range days).map (fun k : ℕ => lo + (k : ℤ))).filter
        (fun d => !((t :: ts).any (fun x => Rat.floor x == d)))
      (1 - (missing.length : ℚ) / (days : ℚ)) * 100
  else 0

/-- The share (in percent of all rows) of the most frequent non-missing
value of a column (`value_counts` drops NaN; 0 when no value remains). -/
def topShare (df : DataFrame) (name : String) : ℚ :=
  let vals := (getColumn df name).filter (fun c => !(c == Cell.na))
  if vals.isEmpty then 0
  else (((vals.map (fun v => vals.count v)).foldr max 0 : ℕ) : ℚ) /
    (df.rows.length : ℚ) * 100

/-- `np.mean` over the collected concentration scores (0 when none was
collected). -/
def distMean (scores : List ℚ) : ℚ :=
  if scores.isEmpty then 0 else scores.sum / (scores.length : ℚ)

/-- `_check_data_distribution`: the balance score is the mean of the
concentration scores `100 - top-share` over the author and subreddit
columns that are present (0 when neither is). -/
def check_data_distribution (df : DataFrame) : ℚ :=
  distMean
    ((if df.cols.contains "author" then [100 - topShare df "author"] else []) ++
     (if df.cols.contains "subreddit" then [100 - topShare df "subreddit"] else []))

/-- `QualityValidator.validate_dataset` restricted to the overall score: all
five sub-scores are always produced, so the weight normalization of
`_calculate_overall_score` is the identity and the overall score is the
fixed 30/25/25/10/10 weighted average.  On a frame with no rows the
consistency and content-quality checks divide plain Python ints by zero and
raise `ZeroDivisionError`, modelled as `none`. -/
def validate_dataset (now : ℚ) (df : DataFrame) : Option ℚ :=
  if df.rows.length = 0 then none
  else some ((30 * check_completeness df + 25 * check_consistency now df +
    25 * check_content_quality df + 10 * check_temporal_coverage df +
    10 * check_data_distribution df) / 100)

/-! ### Helper lemmas -/

/-- Looking a key up in a key-preserving map over an association list with
nodup keys returns the value computed from that key's entry. -/
lemma lookup_map_of_nodup_keys (f : String → List String → ℚ) :
    ∀ (l : List (String × List String)), (l.map Prod.fst).Nodup →
      ∀ cat wl, (cat, wl) ∈ l →
        List.lookup cat (l.map (fun c => (c.1, f c.1 c.2))) = some (f cat wl) := by
  intro l
  induction l with
  | nil => intro _ cat wl hmem; cases hmem
  | cons a t ih =>
    obtain ⟨k, v⟩ := a
    intro hnd cat wl hmem
    simp only [List.map_cons, List.nodup_cons] at hnd
    rcases List.mem_cons.mp hmem with heq | htail
    · injection heq with h1 h2
      subst h1; subst h2
      simp [List.lookup]
    · have hne : cat ≠ k := by
        intro hcontra
        exact hnd.1 (hcontra ▸ List.mem_map_of_mem Prod.fst htail)
      have hbeq : (cat == k) = false := beq_eq_false_iff_ne.mpr hne
      simp only [List.map_cons, List.lookup, hbeq]
      exact ih hnd.2 cat wl htail

/-- The mean of a list of rationals all lying in `[0, 100]` lies in
`[0, 100]` (an empty list giving `0 / 0 = 0`). -/
lemma list_mean_bounds (l : List ℚ) (h : ∀ x ∈ l, 0 ≤ x ∧ x ≤ 100) :
    0 ≤ l.sum / (l.length : ℚ) ∧ l.sum / (l.length : ℚ) ≤ 100 := by
  cases l with
  | nil => simp
  | cons a t =>
    have hlen : (0 : ℚ) < ((a :: t).length : ℚ) := by
      exact_mod_cast Nat.succ_pos t.length
    have hsum0 : 0 ≤ (a :: t).sum := List.sum_nonneg (fun x hx => (h x hx).1)
    have hsum100 : (a :: t).sum ≤ ((a :: t).length : ℚ) * 100 := by
      have := List.sum_le_card_nsmul (a :: t) 100 (fun x hx => (h x hx).2)
      simpa [nsmul_eq_mul] using this
    exact ⟨div_nonneg hsum0 (le_of_lt hlen), by rw [div_le_iff hlen]; linarith⟩

/-- A score of the form `max 0 (100 - issues / n * 100)` lies in `[0, 100]`. -/
lemma issue_score_bounds (issues n : ℕ) :
    0 ≤ max 0 (100 - (issues : ℚ) / (n : ℚ) * 100) ∧
    max 0 (100 - (issues : ℚ) / (n : ℚ) * 100) ≤ 100 := by
  refine ⟨le_max_left 0 _, max_le (by norm_num) ?_⟩
  have hx : 0 ≤ (issues : ℚ) / (n : ℚ) * 100 := by positivity
  linarith

/-- A column never has more cells than the frame has rows. -/
lemma length_getColumn_le (df : DataFrame) (c : String) :
    (getColumn df c).length ≤ df.rows.length := by
  unfold getColumn
  cases df.cols.indexOf? c with
  | none => simp
  | some i => simp

/-- The per-column completeness value `100 - cnt / n * 100` lies in
`[0, 100]` when `cnt ≤ n` and `0 < n`. -/
lemma frac_entry_bounds (cnt n : ℕ) (hcnt : cnt ≤ n) (hn : 0 < n) :
    0 ≤ 100 - (cnt : ℚ) / (n : ℚ) * 100 ∧ 100 - (cnt : ℚ) / (n : ℚ) * 100 ≤ 100 := by
  have hn' : (0 : ℚ) < (n : ℚ) := by exact_mod_cast hn
  have h1 : (cnt : ℚ) / (n : ℚ) ≤ 1 := (div_le_one hn').mpr (by exact_mod_cast hcnt)
  have h2 : 0 ≤ (cnt : ℚ) / (n : ℚ) := by positivity
  constructor <;> nlinarith

/-- The completeness sub-score lies in `[0, 100]` on a nonempty frame. -/
lemma check_completeness_bounds (df : DataFrame) (h : 0 < df.rows.length) :
    0 ≤ check_completeness df ∧ check_completeness df ≤ 100 := by
  unfold check_completeness
  rw [show ((requiredColumns.length : ℕ) : ℚ) = (((requiredColumns.map (fun c =>
      if df.cols.contains c then
        100 - ((getColumn df c).countP (fun x => x == Cell.na) : ℚ) /
          (df.rows.length : ℚ) * 100
      else 0)).length : ℕ) : ℚ) by simp]
  apply list_mean_bounds
  intro x hx
  obtain ⟨c, hc, rfl⟩ := List.mem_map.mp hx
  by_cases hcol : df.cols.contains c
  · rw [if_pos hcol]
    exact frac_entry_bounds _ _
      (le_trans (List.countP_le_length _) (length_getColumn_le df c)) h
  · rw [if_neg hcol]
    norm_num

/-- The consistency sub-score lies in `[0, 100]`. -/
lemma check_consistency_bounds (now : ℚ) (df : DataFrame) :
    0 ≤ check_consistency now df ∧ check_consistency now df ≤ 100 := by
  unfold check_consistency
  exact issue_score_bounds _ _

/-- The content-quality sub-score lies in `[0, 100]`. -/
lemma check_content_quality_bounds (df : DataFrame) :
    0 ≤ check_content_quality df ∧ check_content_quality df ≤ 100 := by
  unfold check_content_quality
  exact issue_score_bounds _ _

/-- The coverage expression `(1 - m / days) * 100` lies in `[0, 100]` when
`m ≤ days` and `0 < days`. -/
lemma coverage_expr_bounds (m days : ℕ) (hm : m ≤ days) (hd : 0 < days) :
    0 ≤ (1 - (m : ℚ) / (days : ℚ)) * 100 ∧ (1 - (m : ℚ) / (days : ℚ)) * 100 ≤ 100 := by
  have hd' : (0 : ℚ) < (days : ℚ) := by exact_mod_cast hd
  have h1 : (m : ℚ) / (days : ℚ) ≤ 1 := (div_le_one hd').mpr (by exact_mod_cast hm)
  have h2 : 0 ≤ (m : ℚ) / (days : ℚ) := by positivity
  constructor <;> nlinarith

/-- The temporal-coverage sub-score lies in `[0, 100]`. -/
lemma check_temporal_coverage_bounds (df : DataFrame) :
    0 ≤ check_temporal_coverage df ∧ check_temporal_coverage df ≤ 100 := by
  unfold check_temporal_coverage
  by_cases hcol : df.cols.contains "created_utc"
  · rw [if_pos hcol]
    cases hts : (getColumn df "created_utc").filterMap cellNum with
    | nil => norm_num
    | cons t ts =>
      refine coverage_expr_bounds _
        ((Rat.floor (ts.foldr max t) - Rat.floor (ts.foldr min t)).toNat + 1)
        ?_ (Nat.succ_pos _)
      calc ((((List.range ((Rat.floor (ts.foldr max t) -
              Rat.floor (ts.foldr min t)).toNat + 1)).map
            (fun k : ℕ => Rat.floor (ts.foldr min t) + (k : ℤ))).filter
            (fun d => !((t :: ts).any (fun x => Rat.floor x == d)))).length)
          ≤ (((List.range ((Rat.floor (ts.foldr max t) -
              Rat.floor (ts.foldr min t)).toNat + 1)).map
            (fun k : ℕ => Rat.floor (ts.foldr min t) + (k : ℤ)))).length :=
            List.length_filter_le _ _
        _ = (Rat.floor (ts.foldr max t) - Rat.floor (ts.foldr min t)).toNat + 1 := by
            rw [List.length_map, List.length_range]
  · rw [if_neg hcol]
    norm_num

/-- The maximum of a list of naturals all bounded by `b` is bounded by `b`. -/
lemma foldr_max_le_nat (l : List ℕ) (b : ℕ) (h : ∀ x ∈ l, x ≤ b) :
    l.foldr max 0 ≤ b := by
  induction l with
  | nil => exact Nat.zero_le b
  | cons a t ih =>
    simp only [List.foldr_cons]
    exact max_le (h a (List.mem_cons_self a t))
      (ih (fun x hx => h x (List.mem_cons_of_mem a hx)))

/-- The top share of a column lies in `[0, 100]` on a nonempty frame. -/
lemma topShare_bounds (df : DataFrame) (name : String) (h : 0 < df.rows.length) :
    0 ≤ topShare df name ∧ topShare df name ≤ 100 := by
  unfold topShare
  by_cases hv : ((getColumn df name).filter (fun c => !(c == Cell.na))).isEmpty
  · simp only [hv, if_pos]
    norm_num
  · simp only [hv]
    rw [if_neg (by simp [hv])]
    have htop : (((getColumn df name).filter (fun c => !(c == Cell.na))).map
        (fun v => ((getColumn df name).filter (fun c => !(c == Cell.na))).count v)).foldr
          max 0 ≤ df.rows.length := by
      apply foldr_max_le_nat
      intro x hx
      obtain ⟨v, _, rfl⟩ := List.mem_map.mp hx
      exact le_trans (List.count_le_length _ _)
        (le_trans (List.length_filter_le _ _) (length_getColumn_le df name))
    have hb := frac_entry_bounds _ _ htop h
    constructor
    · positivity
    · linarith [hb.1]

/-- The mean over scores all in `[0, 100]` lies in `[0, 100]`. -/
lemma distMean_bounds (l : List ℚ) (h : ∀ x ∈ l, 0 ≤ x ∧ x ≤ 100) :
    0 ≤ distMean l ∧ distMean l ≤ 100 := by
  unfold distMean
  split
  · norm_num
  · exact list_mean_bounds l h

/-- The distribution-balance sub-score lies in `[0, 100]` on a nonempty
frame. -/
lemma check_data_distribution_bounds (df : DataFrame) (h : 0 < df.rows.length) :
    0 ≤ check_data_distribution df ∧ check_data_distribution df ≤ 100 := by
  unfold check_data_distribution
  apply distMean_bounds
  intro x hx
  rcases List.mem_append.mp hx with h1 | h1
  · split at h1
    · have hx1 : x = 100 - topShare df "author" := by simpa using h1
      have ht := topShare_bounds df "author" h
      exact ⟨by rw [hx1]; linarith [ht.2], by rw [hx1]; linarith [ht.1]⟩
    · cases h1
  · split at h1
    · have hx1 : x = 100 - topShare df "subreddit" := by simpa using h1
      have ht := topShare_bounds df "subreddit" h
      exact ⟨by rw [hx1]; linarith [ht.2], by rw [hx1]; linarith [ht.1]⟩
    · cases h1

/-- A frame whose required columns are all present with no missing value has
completeness sub-score exactly 100. -/
lemma check_completeness_perfect (df : DataFrame) (h : 0 < df.rows.length)
    (hcols : ∀ c ∈ requiredColumns, df.cols.contains c = true)
    (hna : ∀ c ∈ requiredColumns, ∀ x ∈ getColumn df c, x ≠ Cell.na) :
    check_completeness df = 100 := by
  have hentry : ∀ c ∈ requiredColumns,
      (if df.cols.contains c then
        100 - ((getColumn df c).countP (fun x => x == Cell.na) : ℚ) /
          (df.rows.length : ℚ) * 100
      else 0) = 100 := by
    intro c hc
    rw [if_pos (hcols c hc)]
    have hcnt : (getColumn df c).countP (fun x => x == Cell.na) = 0 := by
      rw [List.countP_eq_zero]
      intro a ha
      simp [hna c hc a ha]
    rw [hcnt]
    norm_num
  unfold check_completeness
  rw [List.map_congr_left hentry]
  simp [requiredColumns]
  norm_num

/-- A frame with no future timestamp, no negative score, no invalid upvote
ratio and no empty content has consistency sub-score exactly 100. -/
lemma check_consistency_perfect (now : ℚ) (df : DataFrame)
    (hfut : ∀ x ∈ getColumn df "created_utc", cellFutureTs now x = false)
    (hneg : ∀ x ∈ getColumn df "score", cellNegScore x = false)
    (hratio : ∀ x ∈ getColumn df "upvote_ratio", cellBadRatio x = false)
    (hempty : ∀ x ∈ getColumn df "content", cellEmptyContent x = false) :
    check_consistency now df = 100 := by
  have c1 : (if df.cols.contains "created_utc" then
      (getColumn df "created_utc").countP (cellFutureTs now) else 0) = 0 := by
    split
    · rw [List.countP_eq_zero]; intro a ha; simp [hfut a ha]
    · rfl
  have c2 : (if df.cols.contains "score" then
      (getColumn df "score").countP cellNegScore else 0) = 0 := by
    split
    · rw [List.countP_eq_zero]; intro a ha; simp [hneg a ha]
    · rfl
  have c3 : (if df.cols.contains "upvote_ratio" then
      (getColumn df "upvote_ratio").countP cellBadRatio else 0) = 0 := by
    split
    · rw [List.countP_eq_zero]; intro a ha; simp [hratio a ha]
    · rfl
  have c4 : (if df.cols.contains "content" then
      (getColumn df "content").countP cellEmptyContent else 0) = 0 := by
    split
    · rw [List.countP_eq_zero]; intro a ha; simp [hempty a ha]
    · rfl
  simp only [check_consistency, c1, c2, c3, c4]
  norm_num

/-! ### Claim C9 -/

/-- Claim C9 (amended): for every nonempty input frame the overall quality
score is the 30/25/25/10/10 weighted combination of the completeness,
consistency, content-quality, temporal-coverage and distribution-balance
sub-scores and lies in `[0, 100]`; and a frame whose required columns are
present with no missing values, no future timestamps, no negative scores,
all upvote ratios in `[0, 1]` and no empty content has completeness and
consistency sub-scores exactly 100.  (On an empty frame the validator
divides by zero and raises.) -/
theorem validate_dataset_overall_score (now : ℚ) (df : DataFrame)
    (h : 0 < df.rows.length) :
    (validate_dataset now df =
        some ((30 * check_completeness df + 25 * check_consistency now df +
          25 * check_content_quality df + 10 * check_temporal_coverage df +
          10 * check_data_distribution df) / 100) ∧
      ∀ s, validate_dataset now df = some s → 0 ≤ s ∧ s ≤ 100) ∧
    ((∀ c ∈ requiredColumns, df.cols.contains c = true) →
      (∀ c ∈ requiredColumns, ∀ x ∈ getColumn df c, x ≠ Cell.na) →
      (∀ x ∈ getColumn df "created_utc", cellFutureTs now x = false) →
      (∀ x ∈ getColumn df "score", cellNegScore x = false) →
      (∀ x ∈ getColumn df "upvote_ratio", cellBadRatio x = false) →
      (∀ x ∈ getColumn df "content", cellEmptyContent x = false) →
      check_completeness df = 100 ∧ check_consistency now df = 100) := by
  have hne : ¬ df.rows.length = 0 := Nat.pos_iff_ne_zero.mp h
  refine ⟨⟨by unfold validate_dataset; rw [if_neg hne], ?_⟩, ?_⟩
  · intro s hs
    unfold validate_dataset at hs
    rw [if_neg hne] at hs
    have hs' := Option.some.inj hs
    obtain ⟨hc1a, hc1b⟩ := check_completeness_bounds df h
    obtain ⟨hc2a, hc2b⟩ := check_consistency_bounds now df
    obtain ⟨hc3a, hc3b⟩ := check_content_quality_bounds df
    obtain ⟨hc4a, hc4b⟩ := check_temporal_coverage_bounds df
    obtain ⟨hc5a, hc5b⟩ := check_data_distribution_bounds df h
    rw [← hs']
    constructor
    · apply div_nonneg _ (by norm_num)
      linarith
    · rw [div_le_iff (by norm_num : (0 : ℚ) < 100)]
      linarith
  · intro hcols hna hfut hneg hratio hempty
    exact ⟨check_completeness_perfect df h hcols hna,
      check_consistency_perfect now df hfut hneg hratio hempty⟩

/-- A nonempty, fully clean sample frame used to witness Claim C9. -/
def sampleFrame : DataFrame :=
  ⟨["title", "content", "author", "created_utc", "score", "subreddit", "upvote_ratio"],
   [[Cell.str "alert", Cell.str "a fine long post about the flood", Cell.str "alice",
     Cell.num 10, Cell.num 5, Cell.str "news", Cell.num 1]]⟩

/-- Witness for C9: on the clean one-row sample frame the overall score is
the advertised weighted combination and the completeness and consistency
sub-scores are 100. -/
theorem validate_dataset_overall_score_witness :
    validate_dataset 100 sampleFrame =
      some ((30 * check_completeness sampleFrame +
        25 * check_consistency 100 sampleFrame +
        25 * check_content_quality sampleFrame +
        10 * check_temporal_coverage sampleFrame +
        10 * check_data_distribution sampleFrame) / 100) ∧
    check_completeness sampleFrame = 100 ∧
    check_consistency 100 sampleFrame = 100 := by
  obtain ⟨⟨h1, _⟩, h2⟩ := validate_dataset_overall_score 100 sampleFrame (by decide)
  refine ⟨h1, h2 ?_ ?_ ?_ ?_ ?_ ?_⟩ <;> with_unfolding_all decide

/-- Counterexample to C9 as stated: on an empty frame the consistency check
computes `0 / 0` on plain Python ints and raises `ZeroDivisionError`, so no
overall score in `[0, 100]` is produced. -/
theorem validate_dataset_empty_counterexample :
    validate_dataset 0 ⟨["title", "content", "author", "created_utc", "score"], []⟩ =
      none := rfl

/-! ### Claims about the Document Scorer and Dataset Enricher -/

/-- Claim C1: for every string input with at least one token,
`calculate_liwc_scores` returns, for each lexicon category, exactly the
number of tokens belonging to that category's word set (duplicates counted
multiply) divided by the total token count, times 100; tokenization splits
on word boundaries and lower-cases the text. -/
theorem calculate_liwc_scores_formula (text : String) (h : 0 < (tokenize text).length)
    (cat : String) (wl : List String) (hmem : (cat, wl) ∈ liwcCategories) :
    List.lookup cat (calculate_liwc_scores (Cell.str text)) =
      some (((tokenize text).countP (fun w => wl.contains w) : ℚ) /
        ((tokenize text).length : ℚ) * 100) := by
  have h0 : ¬ (tokenize text).length = 0 := Nat.pos_iff_ne_zero.mp h
  show List.lookup cat
      (if (tokenize text).length = 0 then liwcCategories.map (fun c => (c.1, 0))
       else liwcCategories.map
         (fun c => (c.1, (((tokenize text).countP (fun w => c.2.contains w) : ℚ) /
           ((tokenize text).length : ℚ)) * 100))) = _
  rw [if_neg h0]
  have hnd : (liwcCategories.map Prod.fst).Nodup := by decide
  exact lookup_map_of_nodup_keys
    (fun _ wl => ((tokenize text).countP (fun w => wl.contains w) : ℚ) /
      ((tokenize text).length : ℚ) * 100) liwcCategories hnd cat wl hmem

/-- Witness for C1: the text has 4 tokens, 2 of which (both occurrences of
the word danger) are in the `risk` word list, so `risk` scores
`2 / 4 * 100 = 50`. -/
theorem calculate_liwc_scores_formula_witness :
    0 < (tokenize "danger danger help now").length ∧
    List.lookup "risk" (calculate_liwc_scores (Cell.str "danger danger help now")) =
      some 50 := by
  refine ⟨by decide, ?_⟩
  have h := calculate_liwc_scores_formula "danger danger help now" (by decide) "risk"
    ["danger", "risk", "threat", "warning", "alert", "emergency", "crisis",
     "hazard", "unsafe", "careful", "caution", "avoid", "escape"] (by decide)
  rw [h]
  with_unfolding_all decide

/-- Claim C6: every category score produced by `calculate_liwc_scores` lies
in `[0, 100]`, and is exactly 0 when the input is missing/non-string or has
zero tokens; a missing input yields the all-zero map instead of raising. -/
theorem calculate_liwc_scores_bounds (text : Cell) (cat : String) (sc : ℚ)
    (h : (cat, sc) ∈ calculate_liwc_scores text) :
    0 ≤ sc ∧ sc ≤ 100 ∧
      ((match text with
        | Cell.str t => (tokenize t).length = 0
        | _ => True) → sc = 0) := by
  cases text with
  | str t =>
    by_cases h0 : (tokenize t).length = 0
    · have hz : sc = 0 := by
        rw [show calculate_liwc_scores (Cell.str t) =
            liwcCategories.map (fun c => (c.1, 0)) by
          simp [calculate_liwc_scores, h0]] at h
        obtain ⟨c, _, hc⟩ := List.mem_map.mp h
        exact (Prod.mk.injEq _ _ _ _ ▸ hc).2.symm
      exact ⟨le_of_eq hz.symm, hz ▸ by norm_num, fun _ => hz⟩
    · rw [show calculate_liwc_scores (Cell.str t) =
          liwcCategories.map (fun c => (c.1,
            (((tokenize t).countP (fun w => c.2.contains w) : ℚ) /
              ((tokenize t).length : ℚ)) * 100)) by
        simp [calculate_liwc_scores, h0]] at h
      obtain ⟨c, _, hc⟩ := List.mem_map.mp h
      have hsc : sc = (((tokenize t).countP (fun w => c.2.contains w) : ℚ) /
          ((tokenize t).length : ℚ)) * 100 :=
        (Prod.mk.injEq _ _ _ _ ▸ hc).2.symm
      have hlen : (0 : ℚ) < ((tokenize t).length : ℚ) := by
        exact_mod_cast Nat.pos_of_ne_zero h0
      have hcount : ((tokenize t).countP (fun w => c.2.contains w) : ℚ) ≤
          ((tokenize t).length : ℚ) := by
        exact_mod_cast List.countP_le_length _
      have hfrac : (((tokenize t).countP (fun w => c.2.contains w) : ℚ) /
          ((tokenize t).length : ℚ)) ≤ 1 := (div_le_one hlen).mpr hcount
      have hnn : (0 : ℚ) ≤ (((tokenize t).countP (fun w => c.2.contains w) : ℚ) /
          ((tokenize t).length : ℚ)) := div_nonneg (by positivity) (le_of_lt hlen)
      refine ⟨?_, ?_, fun hcontra => absurd hcontra h0⟩
      · rw [hsc]; positivity
      · rw [hsc]
        calc (((tokenize t).countP (fun w => c.2.contains w) : ℚ) /
              ((tokenize t).length : ℚ)) * 100 ≤ 1 * 100 :=
            mul_le_mul_of_nonneg_right hfrac (by norm_num)
          _ = 100 := one_mul _
  | num q =>
    have hz : sc = 0 := by
      obtain ⟨c, _, hc⟩ := List.mem_map.mp h
      exact (Prod.mk.injEq _ _ _ _ ▸ hc).2.symm
    exact ⟨le_of_eq hz.symm, hz ▸ by norm_num, fun _ => hz⟩
  | na =>
    have hz : sc = 0 := by
      obtain ⟨c, _, hc⟩ := List.mem_map.mp h
      exact (Prod.mk.injEq _ _ _ _ ▸ hc).2.symm
    exact ⟨le_of_eq hz.symm, hz ▸ by norm_num, fun _ => hz⟩

/-- Witness for C6: the missing (NaN) input scores 0 on the `risk` category,
and 0 is within `[0, 100]`. -/
theorem calculate_liwc_scores_bounds_witness :
    0 ≤ (0 : ℚ) ∧ (0 : ℚ) ≤ 100 ∧ (True → (0 : ℚ) = 0) :=
  calculate_liwc_scores_bounds Cell.na "risk" 0 (by with_unfolding_all decide)

/-- Claim C2 (amended): for every data frame with at least one row on which
`analyze_dataset_liwc` succeeds (the text column is present), the output has
the same row count, its columns are the original columns followed by the
category columns in lexicon-declaration order, and its column count is the
input's plus the number of lexicon categories. -/
theorem analyze_dataset_liwc_shape (df : DataFrame) (textColumn : String)
    (h : df.rows ≠ []) (out : DataFrame)
    (hout : analyze_dataset_liwc df textColumn = some out) :
    out.rows.length = df.rows.length ∧
    out.cols = df.cols ++ liwcCategoryNames ∧
    out.cols.length = df.cols.length + liwcCategories.length := by
  unfold analyze_dataset_liwc at hout
  rw [if_neg (by simpa using h)] at hout
  cases hidx : df.cols.indexOf? textColumn with
  | none => rw [hidx] at hout; cases hout
  | some i =>
    rw [hidx] at hout
    have hout' := Option.some.inj hout
    subst hout'
    refine ⟨by simp, rfl, ?_⟩
    simp [liwcCategoryNames]

/-- Witness for C2: a one-row frame with a single `content` column gains
exactly the 29 category columns after the original one. -/
theorem analyze_dataset_liwc_shape_witness :
    (analyze_dataset_liwc ⟨["content"], [[Cell.str "help"]]⟩ "content").elim False
      (fun out =>
        out.rows.length = 1 ∧
        out.cols = ["content"] ++ liwcCategoryNames ∧
        out.cols.length = 1 + liwcCategories.length) := by
  cases hout : analyze_dataset_liwc ⟨["content"], [[Cell.str "help"]]⟩ "content" with
  | none => exact absurd hout (by with_unfolding_all decide)
  | some out =>
    exact analyze_dataset_liwc_shape ⟨["content"], [[Cell.str "help"]]⟩ "content"
      (by decide) out hout

/-- Counterexample to C2 as stated: on a frame with zero rows the per-row
score list is empty, `pd.DataFrame([])` has no columns, and the
concatenation returns the original frame unchanged, so the column count does
not grow by the number of categories. -/
theorem analyze_dataset_liwc_empty_frame_counterexample :
    analyze_dataset_liwc ⟨["content"], []⟩ "content" = some ⟨["content"], []⟩ ∧
    (⟨["content"], []⟩ : DataFrame).cols.length ≠
      (["content"] : List String).length + liwcCategories.length := by
  exact ⟨rfl, by decide⟩

/-- Claim C5: the normalization step maps every entry of a category column to
`(raw - base_rate) / base_rate * 100` when the base rate is positive (hence
to 0 when the raw value equals the base rate) and to exactly 0 when the base
rate is 0. -/
theorem calculate_normalized_liwc_scores_spec (baseRate : ℚ) (column : List ℚ)
    (i : ℕ) (hi : i < column.length) :
    (0 < baseRate →
      (calculate_normalized_liwc_scores baseRate column).getD i 0 =
        (column.getD i 0 - baseRate) / baseRate * 100 ∧
      (column.getD i 0 = baseRate →
        (calculate_normalized_liwc_scores baseRate column).getD i 0 = 0)) ∧
    (baseRate = 0 →
      (calculate_normalized_liwc_scores baseRate column).getD i 0 = 0) := by
  constructor
  · intro hpos
    have hmap : (calculate_normalized_liwc_scores baseRate column).getD i 0 =
        (column.getD i 0 - baseRate) / baseRate * 100 := by
      unfold calculate_normalized_liwc_scores
      rw [if_pos hpos]
      rw [List.getD_eq_getElem?_getD, List.getElem?_map, List.getElem?_eq_getElem hi,
        List.getD_eq_getElem?_getD, List.getElem?_eq_getElem hi]
      rfl
    refine ⟨hmap, fun heq => ?_⟩
    rw [hmap, heq, sub_self, zero_div, zero_mul]
  · intro h0
    unfold calculate_normalized_liwc_scores
    rw [if_neg (by rw [h0]; exact lt_irrefl 0)]
    rw [List.getD_eq_getElem?_getD, List.getElem?_map, List.getElem?_eq_getElem hi]
    rfl

/-- Witness for C5: with base rate 5 and a column whose entry at index 1 is 5,
the normalized value at index 1 is 0. -/
theorem calculate_normalized_liwc_scores_spec_witness :
    (0 < (5 : ℚ) →
      (calculate_normalized_liwc_scores 5 [3, 5]).getD 1 0 =
        (([3, 5] : List ℚ).getD 1 0 - 5) / 5 * 100 ∧
      (([3, 5] : List ℚ).getD 1 0 = 5 →
        (calculate_normalized_liwc_scores 5 [3, 5]).getD 1 0 = 0)) ∧
    ((5 : ℚ) = 0 → (calculate_normalized_liwc_scores 5 [3, 5]).getD 1 0 = 0) :=
  calculate_normalized_liwc_scores_spec 5 [3, 5] 1 (by decide)

/-! ### Network builders (`src/networks/crisis_network_analyzer.py`)

One `Post` per data-frame row, with the fields the builders read.
Timestamps are rationals counting seconds since an epoch (the code computes
`(t2 - t1).total_seconds() / 3600` for the hour delta). -/

/-- A post row as seen by the network builders. -/
structure Post where
  post_id : String
  author : String
  subreddit : String
  created_utc : ℚ
  score : ℚ
deriving DecidableEq

/-- The author filter of `build_user_interaction_network`: rows whose author
is the deleted or the unknown sentinel contribute no bipartite edge. -/
def validAuthor (a : String) : Bool := !(a == "[deleted]") && !(a == "unknown")

/-- The rows contributing edges to the user–subreddit bipartite graph `G`. -/
def validRows (data : List Post) : List Post :=
  data.filter (fun r => validAuthor r.author)

/-- The nodes of the bipartite graph `G` (authors and subreddits of the
contributing rows, in first-occurrence order). -/
def gNodes (data : List Post) : List String :=
  ((validRows data).flatMap (fun r => [r.author, r.subreddit])).dedup

/-- The neighbor set of a node of `G` (`set(G.neighbors(n))`): the node
spaces of authors and subreddits are shared, so a name that occurs both as
an author and as a subreddit collects neighbors of both kinds. -/
def gNeighbors (data : List Post) (n : String) : List String :=
  ((validRows data).filterMap (fun r =>
    if r.author == n then some r.subreddit
    else if r.subreddit == n then some r.author
    else none)).dedup

/-- `users = [n for n in G.nodes() if n in data['author'].values]`. -/
def interactionUsers (data : List Post) : List String :=
  (gNodes data).filter (fun n => (data.map (fun r => r.author)).contains n)

/-- All ordered pairs `(l[i], l[j])` with `i < j` — the iteration pattern
`for i, u in enumerate(users): for v in users[i+1:]`. -/
def offDiagPairs {α : Type} : List α → List (α × α)
  | [] => []
  | x :: xs => xs.map (fun y => (x, y)) ++ offDiagPairs xs

/-- `build_user_interaction_network`: one edge entry `(u, v, w)` per user
pair whose neighbor sets in `G` intersect, weighted by the size of the
intersection. -/
def build_user_interaction_network (data : List Post) : List (String × String × ℕ) :=
  (offDiagPairs (interactionUsers data)).filterMap (fun p =>
    let common := (gNeighbors data p.1).inter (gNeighbors data p.2)
    if common.isEmpty then none else some (p.1, p.2, common.length))

/-- The distinct communities an author posted in — the notion of the claim
(and of the spec) that the graph is compared against. -/
def authorCommunities (data : List Post) (u : String) : List String :=
  ((data.filter (fun r => r.author == u)).map (fun r => r.subreddit)).dedup

/-- The communities two authors share. -/
def sharedCommunities (data : List Post) (u v : String) : List String :=
  (authorCommunities data u).inter (authorCommunities data v)

/-- The sort key of `data.sort_values('created_utc')`. -/
def postLe (a b : Post) : Prop := a.created_utc ≤ b.created_utc

instance : DecidableRel postLe :=
  fun a b => inferInstanceAs (Decidable (a.created_utc ≤ b.created_utc))

instance : IsTotal Post postLe := ⟨fun a b => le_total a.created_utc b.created_utc⟩

instance : IsTrans Post postLe := ⟨fun _ _ _ h1 h2 => le_trans h1 h2⟩

/-- The inner loop of `build_temporal_network`: scan the later posts in
order, break at the first candidate whose hour delta exceeds the window, and
emit a directed edge to every earlier candidate sharing the subreddit or the
author, weighted by `1 / (hours + 1)` times the average score. -/
def scanForward (p : Post) : List Post → ℚ → List (String × String × ℚ)
  | [], _ => []
  | q :: qs, window =>
    let td := (q.created_utc - p.created_utc) / 3600
    if window < td then []
    else
      (if p.subreddit == q.subreddit || p.author == q.author then
        [(p.post_id, q.post_id, 1 / (td + 1) * ((p.score + q.score) / 2))]
      else []) ++ scanForward p qs window

/-- The outer loop of `build_temporal_network` over the sorted posts. -/
def temporalScan : List Post → ℚ → List (String × String × ℚ)
  | [], _ => []
  | p :: rest, window => scanForward p rest window ++ temporalScan rest window

/-- `build_temporal_network`: sort by timestamp, then emit the directed
temporal-flow edge list (source id, target id, weight).  When post ids are
distinct this list has exactly one entry per edge of the `nx.DiGraph` (with
duplicate ids networkx would overwrite earlier edge data instead). -/
def build_temporal_network (data : List Post) (window : ℚ) :
    List (String × String × ℚ) :=
  temporalScan (List.insertionSort postLe data) window

/-- `build_content_similarity_network`, with the external sklearn step
(TF-IDF vectorization followed by cosine similarity) abstracted as an
oracle: `none` models a vectorizer failure (e.g. an empty corpus, raising
inside the `try`), `some sim` the symmetric pairwise similarity matrix over
row indices.  On failure the builder returns the empty graph; on success it
returns all posts as nodes and one edge per index pair `i < j` whose
similarity exceeds the threshold, weighted by the similarity. -/
def build_content_similarity_network (simResult : Option (ℕ → ℕ → ℚ))
    (post_ids : List ℕ) (threshold : ℚ) : List ℕ × List (ℕ × ℕ × ℚ) :=
  match simResult with
  | none => ([], [])
  | some sim =>
    (post_ids,
     (List.range post_ids.length).flatMap (fun i =>
       (List.range' (i + 1) (post_ids.length - (i + 1))).filterMap (fun j =>
         if threshold < sim i j then
           some (post_ids.getD i 0, post_ids.getD j 0, sim i j)
         else none)))

/-! ### Lemmas about the user-interaction builder -/

/-- When no subreddit name of the dataset collides with an author handle,
the bipartite neighbor set of a valid author is exactly the set of distinct
communities that author posted in. -/
lemma gNeighbors_eq_authorCommunities (data : List Post) (u : String)
    (hdisj : ∀ r ∈ data, ∀ r2 ∈ data, r.subreddit ≠ r2.author)
    (hu : u ∈ data.map (fun r => r.author)) (hval : validAuthor u = true) :
    gNeighbors data u = authorCommunities data u := by
  obtain ⟨r0, hr0, hr0a⟩ := List.mem_map.mp hu
  have hsub : ∀ r ∈ data, (r.subreddit == u) = false := by
    intro r hr
    exact beq_eq_false_iff_ne.mpr (hr0a ▸ hdisj r hr r0 hr0)
  unfold gNeighbors authorCommunities validRows
  congr 1
  clear hdisj hu hr0 hr0a
  clear r0
  induction data with
  | nil => rfl
  | cons r rest ih =>
    have hsub' : ∀ x ∈ rest, (x.subreddit == u) = false :=
      fun x hx => hsub x (List.mem_cons_of_mem r hx)
    by_cases hra : (r.author == u) = true
    · have hv : validAuthor r.author = true := by
        rw [beq_iff_eq.mp hra]; exact hval
      simp only [List.filter_cons, hv, hra, if_pos, List.filterMap_cons, List.map_cons]
      rw [ih hsub']
    · have hra' : (r.author == u) = false := by
        cases h : (r.author == u) with
        | true => exact absurd h hra
        | false => rfl
      by_cases hvr : validAuthor r.author = true
      · simp only [List.filter_cons, hvr, if_pos, List.filterMap_cons, hra',
          hsub r (List.mem_cons_self r rest)]
        simp only [Bool.false_eq_true, if_false]
        rw [ih hsub']
      · have hvr' : validAuthor r.author = false := by
          cases h : validAuthor r.author with
          | true => exact absurd h hvr
          | false => rfl
        simp only [List.filter_cons, hvr', hra']
        simp only [Bool.false_eq_true, if_false]
        rw [ih hsub']

/-- Every valid author occurring in the data is in the `users` list. -/
lemma mem_interactionUsers (data : List Post) (u : String)
    (hu : u ∈ data.map (fun r => r.author)) (hval : validAuthor u = true) :
    u ∈ interactionUsers data := by
  obtain ⟨r0, hr0, hr0a⟩ := List.mem_map.mp hu
  apply List.mem_filter.mpr
  constructor
  · apply List.mem_dedup.mpr
    apply List.mem_flatMap.mpr
    refine ⟨r0, ?_, by rw [hr0a]; exact List.mem_cons_self _ _⟩
    apply List.mem_filter.mpr
    exact ⟨hr0, by rw [hr0a]; exact hval⟩
  · exact List.elem_eq_true_of_mem hu

/-- Two distinct members of a list appear as a pair in `offDiagPairs` in one
of the two orders. -/
lemma offDiagPairs_mem_of {α : Type} {l : List α} {u v : α}
    (hu : u ∈ l) (hv : v ∈ l) (hne : u ≠ v) :
    (u, v) ∈ offDiagPairs l ∨ (v, u) ∈ offDiagPairs l := by
  induction l with
  | nil => cases hu
  | cons x xs ih =>
    rcases List.mem_cons.mp hu with rfl | hu'
    · have hv' : v ∈ xs := by
        rcases List.mem_cons.mp hv with rfl | hv'
        · exact absurd rfl hne
        · exact hv'
      exact Or.inl (List.mem_append_left _
        (List.mem_map.mpr ⟨v, hv', rfl⟩))
    · rcases List.mem_cons.mp hv with rfl | hv'
      · exact Or.inr (List.mem_append_left _
          (List.mem_map.mpr ⟨u, hu', rfl⟩))
      · exact (ih hu' hv').imp (List.mem_append_right _) (List.mem_append_right _)

/-- For nodup lists, the length of the intersection is symmetric (it is the
cardinality of the set intersection). -/
lemma inter_length_comm (A B : List String) (hA : A.Nodup) (hB : B.Nodup) :
    (A.inter B).length = (B.inter A).length := by
  have e1 : A.inter B = A ∩ B := rfl
  have e2 : B.inter A = B ∩ A := rfl
  rw [e1, e2]
  have h1 : (A ∩ B).length = (A ∩ B).toFinset.card :=
    (List.toFinset_card_of_nodup (List.Nodup.inter B hA)).symm
  have h2 : (B ∩ A).length = (B ∩ A).toFinset.card :=
    (List.toFinset_card_of_nodup (List.Nodup.inter A hB)).symm
  rw [h1, h2, List.toFinset_inter, List.toFinset_inter, Finset.inter_comm]

/-- Characterization of membership in the user-interaction edge list. -/
lemma mem_user_interaction_network (data : List Post) (u v : String) (w : ℕ) :
    (u, v, w) ∈ build_user_interaction_network data ↔
      ((u, v) ∈ offDiagPairs (interactionUsers data) ∧
       (gNeighbors data u).inter (gNeighbors data v) ≠ [] ∧
       w = ((gNeighbors data u).inter (gNeighbors data v)).length) := by
  unfold build_user_interaction_network
  rw [List.mem_filterMap]
  constructor
  · rintro ⟨⟨a, b⟩, hp, hf⟩
    dsimp only at hf
    by_cases hemp : ((gNeighbors data a).inter (gNeighbors data b)).isEmpty
    · rw [if_pos hemp] at hf
      cases hf
    · rw [if_neg hemp] at hf
      have hf1 : a = u ∧ b = v ∧
          ((gNeighbors data a).inter (gNeighbors data b)).length = w := by
        simpa using Option.some.inj hf
      obtain ⟨rfl, rfl, h3⟩ := hf1
      refine ⟨hp, ?_, h3.symm⟩
      intro hnil
      rw [hnil] at hemp
      exact hemp rfl
  · rintro ⟨hp, hne, rfl⟩
    refine ⟨(u, v), hp, ?_⟩
    rw [if_neg ?_]
    intro hemp
    exact hne (List.isEmpty_iff.mp hemp)

/-! ### Claim C3 -/

/-- Claim C3 (amended): provided no community name of the dataset coincides
with any author handle, then for every pair of distinct non-sentinel authors
(both the deleted and the unknown sentinel are excluded) occurring in the
data, the user-interaction network has an edge between them iff they posted
in at least one community in common, and every such edge's weight is the
number of communities they share. -/
theorem user_interaction_network_edges (data : List Post)
    (hdisj : ∀ r ∈ data, ∀ r2 ∈ data, r.subreddit ≠ r2.author)
    (u v : String) (hne : u ≠ v)
    (hu : u ∈ data.map (fun r => r.author)) (hv : v ∈ data.map (fun r => r.author))
    (hvu : validAuthor u = true) (hvv : validAuthor v = true) :
    ((∃ w, (u, v, w) ∈ build_user_interaction_network data ∨
        (v, u, w) ∈ build_user_interaction_network data) ↔
      sharedCommunities data u v ≠ []) ∧
    (∀ w, ((u, v, w) ∈ build_user_interaction_network data ∨
        (v, u, w) ∈ build_user_interaction_network data) →
      w = (sharedCommunities data u v).length) := by
  have hgu := gNeighbors_eq_authorCommunities data u hdisj hu hvu
  have hgv := gNeighbors_eq_authorCommunities data v hdisj hv hvv
  have hndu : (authorCommunities data u).Nodup := List.nodup_dedup _
  have hndv : (authorCommunities data v).Nodup := List.nodup_dedup _
  have hlen : ((authorCommunities data v).inter (authorCommunities data u)).length =
      (sharedCommunities data u v).length := inter_length_comm _ _ hndv hndu
  have hnil : ((authorCommunities data v).inter (authorCommunities data u)) = [] ↔
      sharedCommunities data u v = [] := by
    constructor <;> intro h
    · have := hlen
      rw [h] at this
      exact List.length_eq_zero.mp (by rw [← this]; rfl)
    · have := hlen
      rw [show sharedCommunities data u v = ([] : List String) from h] at this
      exact List.length_eq_zero.mp (by rw [this]; rfl)
  constructor
  · constructor
    · rintro ⟨w, hw | hw⟩
      · obtain ⟨_, hne1, _⟩ := (mem_user_interaction_network data u v w).mp hw
        rw [hgu, hgv] at hne1
        exact hne1
      · obtain ⟨_, hne1, _⟩ := (mem_user_interaction_network data v u w).mp hw
        rw [hgv, hgu] at hne1
        intro hsh
        exact hne1 (hnil.mpr hsh)
    · intro hsh
      have hu' := mem_interactionUsers data u hu hvu
      have hv' := mem_interactionUsers data v hv hvv
      rcases offDiagPairs_mem_of hu' hv' hne with hp | hp
      · exact ⟨_, Or.inl ((mem_user_interaction_network data u v _).mpr
          ⟨hp, by rw [hgu, hgv]; exact hsh, rfl⟩)⟩
      · refine ⟨_, Or.inr ((mem_user_interaction_network data v u _).mpr
          ⟨hp, ?_, rfl⟩)⟩
        rw [hgv, hgu]
        intro h
        exact hsh (hnil.mp h)
  · intro w hw
    rcases hw with hw | hw
    · obtain ⟨_, _, hww⟩ := (mem_user_interaction_network data u v w).mp hw
      rw [hgu, hgv] at hww
      exact hww
    · obtain ⟨_, _, hww⟩ := (mem_user_interaction_network data v u w).mp hw
      rw [hgv, hgu] at hww
      rw [hww]
      exact hlen

/-- Witness for C3: two distinct valid authors posting in one shared
community are connected with weight 1, matching their single shared
community. -/
theorem user_interaction_network_edges_witness :
    ((∃ w, ("a", "b", w) ∈ build_user_interaction_network
        [⟨"q1", "a", "s", 0, 0⟩, ⟨"q2", "b", "s", 0, 0⟩] ∨
      ("b", "a", w) ∈ build_user_interaction_network
        [⟨"q1", "a", "s", 0, 0⟩, ⟨"q2", "b", "s", 0, 0⟩]) ↔
      sharedCommunities [⟨"q1", "a", "s", 0, 0⟩, ⟨"q2", "b", "s", 0, 0⟩] "a" "b" ≠ []) ∧
    (∀ w, (("a", "b", w) ∈ build_user_interaction_network
        [⟨"q1", "a", "s", 0, 0⟩, ⟨"q2", "b", "s", 0, 0⟩] ∨
      ("b", "a", w) ∈ build_user_interaction_network
        [⟨"q1", "a", "s", 0, 0⟩, ⟨"q2", "b", "s", 0, 0⟩]) →
      w = (sharedCommunities [⟨"q1", "a", "s", 0, 0⟩, ⟨"q2", "b", "s", 0, 0⟩] "a" "b").length) :=
  user_interaction_network_edges [⟨"q1", "a", "s", 0, 0⟩, ⟨"q2", "b", "s", 0, 0⟩]
    (by decide) "a" "b" (by decide) (by decide) (by decide) (by decide) (by decide)

/-- Counterexample to C3 as stated: author and subreddit names share one
node space, so with a handle that is also a community name (here `x` is a
subreddit of author `v` and the handle of an author posting in community
`u`, while `u` is itself both a community name and an author handle) the
builder connects authors `v` and `u` although they share no community. -/
theorem user_interaction_network_collision_counterexample :
    ("v", "u", 1) ∈ build_user_interaction_network
      [⟨"p1", "v", "x", 0, 0⟩, ⟨"p2", "x", "u", 0, 0⟩, ⟨"p3", "u", "w", 0, 0⟩] ∧
    sharedCommunities
      [⟨"p1", "v", "x", 0, 0⟩, ⟨"p2", "x", "u", 0, 0⟩, ⟨"p3", "u", "w", 0, 0⟩]
      "v" "u" = [] ∧
    validAuthor "v" = true ∧ validAuthor "u" = true ∧ "v" ≠ "u" := by
  refine ⟨?_, ?_, ?_, ?_, ?_⟩ <;> decide

/-! ### Lemmas about the temporal builder -/

/-- Every edge emitted by the forward scan targets a candidate within the
window and carries the proximity-times-engagement weight. -/
lemma scanForward_sound (p : Post) :
    ∀ (l : List Post) (window : ℚ) (e : String × String × ℚ),
      e ∈ scanForward p l window →
      ∃ q ∈ l, e = (p.post_id, q.post_id,
          1 / ((q.created_utc - p.created_utc) / 3600 + 1) * ((p.score + q.score) / 2)) ∧
        (q.created_utc - p.created_utc) / 3600 ≤ window := by
  intro l
  induction l with
  | nil => intro window e he; cases he
  | cons q qs ih =>
    intro window e he
    unfold scanForward at he
    by_cases hbr : window < (q.created_utc - p.created_utc) / 3600
    · rw [if_pos hbr] at he
      cases he
    · rw [if_neg hbr] at he
      rcases List.mem_append.mp he with h1 | h1
      · by_cases hsh : (p.subreddit == q.subreddit || p.author == q.author) = true
        · rw [if_pos hsh] at h1
          have he' := List.mem_singleton.mp h1
          exact ⟨q, List.mem_cons_self q qs, he', le_of_not_lt hbr⟩
        · rw [if_neg hsh] at h1
          cases h1
      · obtain ⟨q', hq', he', hw'⟩ := ih window e h1
        exact ⟨q', List.mem_cons_of_mem q hq', he', hw'⟩

/-- On a sorted candidate list the forward scan reaches every in-window
candidate sharing the author or the subreddit: the early break is safe. -/
lemma scanForward_complete (p v : Post) :
    ∀ (l : List Post) (window : ℚ),
      l.Pairwise postLe → v ∈ l →
      (v.created_utc - p.created_utc) / 3600 ≤ window →
      (p.subreddit = v.subreddit ∨ p.author = v.author) →
      (p.post_id, v.post_id,
        1 / ((v.created_utc - p.created_utc) / 3600 + 1) * ((p.score + v.score) / 2)) ∈
        scanForward p l window := by
  intro l
  induction l with
  | nil => intro window _ hv; cases hv
  | cons q qs ih =>
    intro window hpair hv hwin hshare
    rcases List.mem_cons.mp hv with rfl | hv'
    · unfold scanForward
      rw [if_neg (not_lt.mpr hwin)]
      apply List.mem_append_left
      have hs : (p.subreddit == v.subreddit || p.author == v.author) = true := by
        rcases hshare with h | h <;> simp [h]
      rw [if_pos hs]
      exact List.mem_singleton.mpr rfl
    · have hq : postLe q v := (List.pairwise_cons.mp hpair).1 v hv'
      have hqwin : (q.created_utc - p.created_utc) / 3600 ≤ window := by
        have h1 : (q.created_utc - p.created_utc) / 3600 ≤
            (v.created_utc - p.created_utc) / 3600 := by
          apply div_le_div_of_nonneg_right ?_ (by norm_num)
          have : q.created_utc ≤ v.created_utc := hq
          linarith
        linarith
      unfold scanForward
      rw [if_neg (not_lt.mpr hqwin)]
      exact List.mem_append_right _
        (ih window (List.pairwise_cons.mp hpair).2 hv' hwin hshare)

/-- An edge of the scan of a suffix belongs to the scan of the whole list. -/
lemma temporalScan_of_suffix (window : ℚ) :
    ∀ (l1 : List Post) (p : Post) (l2 : List Post) (e : String × String × ℚ),
      e ∈ scanForward p l2 window → e ∈ temporalScan (l1 ++ p :: l2) window := by
  intro l1
  induction l1 with
  | nil =>
    intro p l2 e he
    show e ∈ temporalScan (p :: l2) window
    unfold temporalScan
    exact List.mem_append_left _ he
  | cons x xs ih =>
    intro p l2 e he
    show e ∈ temporalScan (x :: (xs ++ p :: l2)) window
    unfold temporalScan
    exact List.mem_append_right _ (ih p l2 e he)

/-- Every edge of the scan of a sorted post list joins two posts of the
list, points forward in time, and stays within the window. -/
lemma temporalScan_sound (window : ℚ) :
    ∀ (posts : List Post), posts.Pairwise postLe →
      ∀ e ∈ temporalScan posts window,
      ∃ u v : Post, u ∈ posts ∧ v ∈ posts ∧
        e = (u.post_id, v.post_id,
          1 / ((v.created_utc - u.created_utc) / 3600 + 1) * ((u.score + v.score) / 2)) ∧
        u.created_utc ≤ v.created_utc ∧
        (v.created_utc - u.created_utc) / 3600 ≤ window := by
  intro posts
  induction posts with
  | nil => intro _ e he; cases he
  | cons p rest ih =>
    intro hpair e he
    unfold temporalScan at he
    rcases List.mem_append.mp he with h1 | h1
    · obtain ⟨q, hq, he', hw⟩ := scanForward_sound p rest window e h1
      exact ⟨p, q, List.mem_cons_self p rest, List.mem_cons_of_mem p hq, he',
        (List.pairwise_cons.mp hpair).1 q hq, hw⟩
    · obtain ⟨u, v, hu, hv, he', hle, hw⟩ := ih (List.pairwise_cons.mp hpair).2 e h1
      exact ⟨u, v, List.mem_cons_of_mem p hu, List.mem_cons_of_mem p hv, he', hle, hw⟩

/-! ### Claims C4 and C10 -/

/-- Claim C4: whenever a post `v` is strictly later than a post `u`, within
the time window of it, and shares its author or community, the temporal-flow
network has the directed edge from `u` to `v` weighted by
`1 / (hours + 1)` times the average of the two engagement scores — the
forward scan's early break loses no such pair because the data is sorted.
Post ids are assumed distinct (the spec's data-model invariant), which makes
the edge list coincide with the `nx.DiGraph` edge set. -/
theorem build_temporal_network_edges (data : List Post) (window : ℚ)
    (hids : (data.map (fun p => p.post_id)).Nodup)
    (u v : Post) (hu : u ∈ data) (hv : v ∈ data)
    (hlt : u.created_utc < v.created_utc)
    (hwin : (v.created_utc - u.created_utc) / 3600 ≤ window)
    (hshare : u.subreddit = v.subreddit ∨ u.author = v.author) :
    (u.post_id, v.post_id,
      1 / ((v.created_utc - u.created_utc) / 3600 + 1) * ((u.score + v.score) / 2)) ∈
      build_temporal_network data window := by
  unfold build_temporal_network
  have hperm := List.perm_insertionSort postLe data
  have hsorted : (List.insertionSort postLe data).Pairwise postLe :=
    List.sorted_insertionSort postLe data
  have hu' : u ∈ List.insertionSort postLe data := hperm.mem_iff.mpr hu
  have hv' : v ∈ List.insertionSort postLe data := hperm.mem_iff.mpr hv
  obtain ⟨l1, l2, hsplit⟩ := List.append_of_mem hu'
  rw [hsplit] at hv' hsorted
  have hpl := List.pairwise_append.mp hsorted
  rcases List.mem_append.mp hv' with hv1 | hv2
  · exfalso
    have : postLe v u := hpl.2.2 v hv1 u (List.mem_cons_self u l2)
    exact absurd hlt (not_lt.mpr this)
  · rcases List.mem_cons.mp hv2 with heq | hv2'
    · exact absurd hlt (heq ▸ lt_irrefl _)
    · rw [hsplit]
      exact temporalScan_of_suffix window l1 u l2 _
        (scanForward_complete u v l2 window (List.pairwise_cons.mp hpl.2.1).2
          hv2' hwin hshare)

/-- Witness for C4: two posts by the same author one hour apart produce the
directed edge with weight `1/2 * 15 = 15/2`. -/
theorem build_temporal_network_edges_witness :
    ("a", "b",
      1 / ((((3600 : ℚ) - 0) / 3600) + 1) * (((10 : ℚ) + 20) / 2)) ∈
      build_temporal_network
        [⟨"a", "alice", "s1", 0, 10⟩, ⟨"b", "alice", "s2", 3600, 20⟩] 24 :=
  build_temporal_network_edges
    [⟨"a", "alice", "s1", 0, 10⟩, ⟨"b", "alice", "s2", 3600, 20⟩] 24
    (by decide) ⟨"a", "alice", "s1", 0, 10⟩ ⟨"b", "alice", "s2", 3600, 20⟩
    (by decide) (by decide) (by norm_num) (by norm_num) (Or.inr rfl)

/-- Claim C10: every edge of the temporal-flow network points forward in
time — its source post is no later than its target post — and the time
difference is at most the window. -/
theorem build_temporal_network_forward (data : List Post) (window : ℚ)
    (e : String × String × ℚ) (he : e ∈ build_temporal_network data window) :
    ∃ u v : Post, u ∈ data ∧ v ∈ data ∧ e.1 = u.post_id ∧ e.2.1 = v.post_id ∧
      u.created_utc ≤ v.created_utc ∧
      (v.created_utc - u.created_utc) / 3600 ≤ window := by
  unfold build_temporal_network at he
  obtain ⟨u, v, hu, hv, heq, hle, hw⟩ :=
    temporalScan_sound window _ (List.sorted_insertionSort postLe data) e he
  have hperm := List.perm_insertionSort postLe data
  exact ⟨u, v, hperm.mem_iff.mp hu, hperm.mem_iff.mp hv,
    by rw [heq], by rw [heq], hle, hw⟩

/-- Witness for C10: the single edge of a two-post dataset points from the
earlier to the later post within the 24-hour window. -/
theorem build_temporal_network_forward_witness :
    ∃ u v : Post,
      u ∈ [(⟨"c", "carol", "s3", 0, 4⟩ : Post), ⟨"d", "carol", "s4", 7200, 8⟩] ∧
      v ∈ [(⟨"c", "carol", "s3", 0, 4⟩ : Post), ⟨"d", "carol", "s4", 7200, 8⟩] ∧
      (("c", "d", (2 : ℚ)) : String × String × ℚ).1 = u.post_id ∧
      (("c", "d", (2 : ℚ)) : String × String × ℚ).2.1 = v.post_id ∧
      u.created_utc ≤ v.created_utc ∧
      (v.created_utc - u.created_utc) / 3600 ≤ 24 :=
  build_temporal_network_forward
    [⟨"c", "carol", "s3", 0, 4⟩, ⟨"d", "carol", "s4", 7200, 8⟩] 24
    ("c", "d", 2) (by with_unfolding_all decide)

/-! ### Claim C8 -/

/-- Claim C8: when TF-IDF vectorization fails (for example on an empty
corpus) the content-similarity builder returns the empty graph instead of
raising; when it succeeds, an edge exists between two posts exactly when
their cosine similarity exceeds the threshold (default 0.3), with weight
equal to the similarity. -/
theorem build_content_similarity_network_spec (simResult : Option (ℕ → ℕ → ℚ))
    (post_ids : List ℕ) (threshold : ℚ) (hnd : post_ids.Nodup) :
    (simResult = none →
      build_content_similarity_network simResult post_ids threshold = ([], [])) ∧
    (∀ sim, simResult = some sim → ∀ i j, i < j → j < post_ids.length →
      ((post_ids.getD i 0, post_ids.getD j 0, sim i j) ∈
          (build_content_similarity_network simResult post_ids threshold).2 ↔
        threshold < sim i j)) := by
  constructor
  · rintro rfl
    rfl
  · rintro sim rfl i j hij hj
    have hinj : ∀ a b, a < post_ids.length → b < post_ids.length →
        post_ids.getD a 0 = post_ids.getD b 0 → a = b := by
      intro a b ha hb hab
      rw [List.getD_eq_getElem?_getD, List.getElem?_eq_getElem ha,
        List.getD_eq_getElem?_getD, List.getElem?_eq_getElem hb] at hab
      exact (List.Nodup.getElem_inj_iff hnd).mp (by simpa using hab)
    show _ ∈ (List.range post_ids.length).flatMap _ ↔ _
    rw [List.mem_flatMap]
    constructor
    · rintro ⟨i', hi', hmem⟩
      obtain ⟨j', hj', hf⟩ := List.mem_filterMap.mp hmem
      have hi'lt : i' < post_ids.length := List.mem_range.mp hi'
      obtain ⟨k, hk, hjeq⟩ := List.mem_range'.mp hj'
      have hj'lt : j' < post_ids.length := by omega
      by_cases hgt : threshold < sim i' j'
      · rw [if_pos hgt] at hf
        have hf1 : post_ids.getD i' 0 = post_ids.getD i 0 ∧
            post_ids.getD j' 0 = post_ids.getD j 0 ∧ sim i' j' = sim i j := by
          simpa using Option.some.inj hf
        have hieq : i' = i := hinj i' i hi'lt (lt_trans hij hj) hf1.1
        have hjeq2 : j' = j := hinj j' j hj'lt hj hf1.2.1
        rw [← hieq, ← hjeq2]
        exact hgt
      · rw [if_neg hgt] at hf
        cases hf
    · intro hgt
      refine ⟨i, List.mem_range.mpr (lt_trans hij hj), ?_⟩
      apply List.mem_filterMap.mpr
      refine ⟨j, ?_, by rw [if_pos hgt]⟩
      apply List.mem_range'.mpr
      exact ⟨j - (i + 1), by omega, by omega⟩

/-- Witness for C8: with a constant similarity of `1/2` over two posts and
the default threshold `3/10`, the edge between the two posts is present. -/
theorem build_content_similarity_network_spec_witness :
    (((10 : ℕ), (20 : ℕ), (1 : ℚ) / 2) ∈
        (build_content_similarity_network (some (fun _ _ => 1 / 2)) [10, 20] (3 / 10)).2) ∧
    (3 : ℚ) / 10 < 1 / 2 := by
  have h := (build_content_similarity_network_spec (some (fun _ _ => (1 : ℚ) / 2))
    [10, 20] (3 / 10) (by decide)).2 (fun _ _ => (1 : ℚ) / 2) rfl 0 1
    (by decide) (by decide)
  have hlt : (3 : ℚ) / 10 < 1 / 2 := by norm_num
  have hm := h.mpr hlt
  exact ⟨by simpa using hm, hlt⟩

/-! ### Metrics engine (`calculate_basic_metrics`): path lengths on the
largest connected component, for undirected graphs -/

/-- An undirected graph as node and edge lists. -/
structure UGraph where
  verts : List ℕ
  edges : List (ℕ × ℕ)
deriving DecidableEq

/-- The neighbor set of a vertex. -/
def nbrs (g : UGraph) (v : ℕ) : List ℕ :=
  (g.edges.filterMap (fun e =>
    if e.1 = v then some e.2 else if e.2 = v then some e.1 else none)).dedup

/-- Breadth-first levels: pairs `(vertex, distance)` reachable from the
current frontier, the fuel bounding the number of levels. -/
def bfsLevels (g : UGraph) : ℕ → List ℕ → List ℕ → ℕ → List (ℕ × ℕ)
  | 0, _, _, _ => []
  | fuel + 1, visited, frontier, d =>
    if frontier.isEmpty then []
    else
      frontier.map (fun v => (v, d)) ++
        bfsLevels g fuel
          (visited ++ ((frontier.flatMap (fun v => nbrs g v)).filter
            (fun x => !(visited.contains x))).dedup)
          (((frontier.flatMap (fun v => nbrs g v)).filter
            (fun x => !(visited.contains x))).dedup)
          (d + 1)

/-- Shortest-path distances from a source vertex (breadth-first search, as
`nx.single_source_shortest_path_length` computes them). -/
def distsFrom (g : UGraph) (s : ℕ) : List (ℕ × ℕ) :=
  bfsLevels g (g.verts.length + 1) [s] [s] 0

/-- The connected component of a vertex: its reachable set. -/
def componentOf (g : UGraph) (s : ℕ) : List ℕ :=
  (distsFrom g s).map Prod.fst

/-- `nx.is_connected`: every vertex reachable from the first one (networkx
raises on the null graph; the path-metrics block only runs on nonempty
graphs, so the empty case is out of scope and mapped to `false`). -/
def is_connected (g : UGraph) : Bool :=
  match g.verts with
  | [] => false
  | v :: _ => g.verts.all (fun x => (componentOf g v).contains x)

/-- `nx.connected_components` as the BFS partition of the vertex list. -/
def componentsAux (g : UGraph) : List ℕ → List ℕ → List (List ℕ)
  | [], _ => []
  | v :: rest, seen =>
    if seen.contains v then componentsAux g rest seen
    else componentOf g v :: componentsAux g rest (seen ++ componentOf g v)

/-- The list of connected components. -/
def componentsList (g : UGraph) : List (List ℕ) :=
  componentsAux g g.verts []

/-- `max(nx.connected_components(G), key=len)`: the first component of
maximal size (Python's `max` keeps the earliest maximum). -/
def largestComponent (g : UGraph) : List ℕ :=
  (componentsList g).foldl (fun best c => if best.length < c.length then c else best) []

/-- The subgraph induced on a vertex set (`G.subgraph(largest_cc)`). -/
def inducedSubgraph (g : UGraph) (vs : List ℕ) : UGraph :=
  ⟨vs, g.edges.filter (fun e => vs.contains e.1 && vs.contains e.2)⟩

/-- `nx.average_shortest_path_length`: the sum of the shortest-path lengths
over ordered vertex pairs (the diagonal contributing 0), divided by
`n * (n - 1)`. -/
def avgShortestPath (g : UGraph) : ℚ :=
  ((g.verts.flatMap (fun s => (distsFrom g s).map Prod.snd)).sum : ℚ) /
    ((g.verts.length : ℚ) * ((g.verts.length : ℚ) - 1))

/-- The eccentricity of a vertex: its largest BFS distance. -/
def eccentricity (g : UGraph) (s : ℕ) : ℕ :=
  ((distsFrom g s).map Prod.snd).foldr max 0

/-- `nx.diameter`: the largest eccentricity. -/
def diameter (g : UGraph) : ℕ :=
  (g.verts.map (eccentricity g)).foldr max 0

/-- The path-lengths block of `calculate_basic_metrics` on an undirected
graph: take the whole graph when connected, otherwise the subgraph induced
on the largest connected component; report average shortest path and
diameter when that graph has more than one node, and nothing otherwise (the
source sets `metrics['path_lengths']` only inside
`if largest_cc.number_of_nodes() > 1`).  For undirected graphs the
computation on a connected component cannot raise, so the `except` branch
that would report zeros is unreachable here. -/
def path_length_metrics (g : UGraph) : Option (ℚ × ℕ) :=
  let largest := if is_connected g then g else inducedSubgraph g (largestComponent g)
  if 1 < largest.verts.length then some (avgShortestPath largest, diameter largest)
  else none

/-- The argmax fold over component lists returns the seed or a member. -/
lemma foldl_pick_mem (l : List (List ℕ)) (init : List ℕ) :
    l.foldl (fun best c => if best.length < c.length then c else best) init = init ∨
    l.foldl (fun best c => if best.length < c.length then c else best) init ∈ l := by
  induction l generalizing init with
  | nil => exact Or.inl rfl
  | cons a t ih =>
    rcases ih (if init.length < a.length then a else init) with h | h
    · rw [List.foldl_cons, h]
      split
      · exact Or.inr (List.mem_cons_self a t)
      · exact Or.inl rfl
    · exact Or.inr (List.mem_cons_of_mem a (by rw [List.foldl_cons]; exact h))

/-- The argmax fold dominates its seed and every member. -/
lemma foldl_pick_le (l : List (List ℕ)) (init : List ℕ) :
    init.length ≤
      (l.foldl (fun best c => if best.length < c.length then c else best) init).length ∧
    ∀ c ∈ l, c.length ≤
      (l.foldl (fun best c => if best.length < c.length then c else best) init).length := by
  induction l generalizing init with
  | nil => exact ⟨le_refl _, by intro c hc; cases hc⟩
  | cons a t ih =>
    have h1 := ih (if init.length < a.length then a else init)
    have hinit : init.length ≤ (if init.length < a.length then a else init).length := by
      split
      · omega
      · exact le_refl _
    have ha : a.length ≤ (if init.length < a.length then a else init).length := by
      split
      · exact le_refl _
      · omega
    rw [List.foldl_cons]
    refine ⟨le_trans hinit h1.1, ?_⟩
    intro c hc
    rcases List.mem_cons.mp hc with rfl | hc'
    · exact le_trans ha h1.1
    · exact h1.2 c hc'

/-! ### Claim C7 -/

/-- Claim C7 (amended): on a disconnected undirected graph whose largest
connected component has more than one node, the metrics engine reports the
average shortest path and the diameter of the subgraph induced on that
component — a component at least as large as every other component — rather
than zeros; zeros are reported only when the library computation raises
(which for undirected graphs it does not). -/
theorem path_length_metrics_largest_component (g : UGraph)
    (hdis : is_connected g = false)
    (hbig : 1 < (largestComponent g).length) :
    path_length_metrics g =
      some (avgShortestPath (inducedSubgraph g (largestComponent g)),
        diameter (inducedSubgraph g (largestComponent g))) ∧
    largestComponent g ∈ componentsList g ∧
    ∀ c ∈ componentsList g, c.length ≤ (largestComponent g).length := by
  refine ⟨?_, ?_, ?_⟩
  · unfold path_length_metrics
    rw [hdis]
    show (if 1 < (inducedSubgraph g (largestComponent g)).verts.length then _ else _) = _
    rw [if_pos (by exact hbig)]
    simp
  · rcases foldl_pick_mem (componentsList g) [] with h | h
    · exfalso
      have : (largestComponent g).length = 0 := by
        unfold largestComponent
        rw [h]
        rfl
      omega
    · exact h
  · intro c hc
    exact (foldl_pick_le (componentsList g) []).2 c hc

/-- Witness for C7: the graph with vertices `{0, 1, 2}` and one edge `(0,1)`
is disconnected and its largest component `{0, 1}` has two nodes; the
reported values are that component's. -/
theorem path_length_metrics_largest_component_witness :
    path_length_metrics ⟨[0, 1, 2], [(0, 1)]⟩ =
      some (avgShortestPath (inducedSubgraph ⟨[0, 1, 2], [(0, 1)]⟩
          (largestComponent ⟨[0, 1, 2], [(0, 1)]⟩)),
        diameter (inducedSubgraph ⟨[0, 1, 2], [(0, 1)]⟩
          (largestComponent ⟨[0, 1, 2], [(0, 1)]⟩))) ∧
    largestComponent ⟨[0, 1, 2], [(0, 1)]⟩ ∈ componentsList ⟨[0, 1, 2], [(0, 1)]⟩ ∧
    ∀ c ∈ componentsList ⟨[0, 1, 2], [(0, 1)]⟩,
      c.length ≤ (largestComponent ⟨[0, 1, 2], [(0, 1)]⟩).length :=
  path_length_metrics_largest_component ⟨[0, 1, 2], [(0, 1)]⟩ (by decide)
    (by decide)

/-- Counterexample to C7 as stated: on the disconnected graph with vertices
`{0, 1, 2}` and the single edge `(0, 1)` the engine reports the largest
component's average shortest path 1 and diameter 1, not zeros. -/
theorem path_length_metrics_disconnected_counterexample :
    is_connected ⟨[0, 1, 2], [(0, 1)]⟩ = false ∧
    path_length_metrics ⟨[0, 1, 2], [(0, 1)]⟩ = some (1, 1) ∧
    some ((1 : ℚ), (1 : ℕ)) ≠ some ((0 : ℚ), (0 : ℕ)) := by
  refine ⟨by decide, ?_, by decide⟩
  with_unfolding_all decide

end CrisisNet
